import Mathlib

/-!
Verification of the agentic chat backend (aadya75/agentic-chatbot-final)
against its natural-language specification.

The Python sources are shallowly embedded: pure functions become Lean
functions, stateful methods become explicit state passing, Python dicts
become association lists, floats become exact rationals (`Rat`) or
integers, and fallible code returns `Option`/`Except`.  LLM and
tool-server responses are oracle parameters: the control flow around
them is modelled faithfully, their payloads are free inputs.
-/

/-! ## Small utilities shared by the models -/

/-- Lookup in an association list keyed by `Nat`, modelling a Python dict
`{str(i): v}` (`dict.get`): first matching key wins; Python dicts have
unique keys, which the well-formedness predicates below record. -/
def dictGet (m : List (Nat × String)) (i : Nat) : Option String :=
  match m with
  | [] => none
  | kv :: rest => if kv.1 = i then some kv.2 else dictGet rest i

/-- Concatenate a list of character lists with a separator, modelling
Python `sep.join(parts)`. -/
def joinSep (sep : List Char) : List (List Char) → List Char
  | [] => []
  | [p] => p
  | p :: q :: rest => p ++ sep ++ joinSep sep (q :: rest)

/-- The rational 1/2 in kernel-reducible constructor form (Python float
`0.5`). -/
def ratHalf : Rat := ⟨1, 2, by decide, by decide⟩

/-- The rational 9/10 (Python float `0.9`). -/
def ratNineTenths : Rat := ⟨9, 10, by decide, by decide⟩

/-- The rational 3/5 (the Python confidence threshold `0.6`). -/
def ratThreeFifths : Rat := ⟨3, 5, by decide, by decide⟩

/-- The rational 1/10 (Python float `0.1`). -/
def ratOneTenth : Rat := ⟨1, 10, by decide, by decide⟩

/-- The ASCII apostrophe character (written via its code point). -/
def aposC : Char := Char.ofNat 39

/-- The apostrophe as a one-character string. -/
def aposS : String := aposC.toString

/-! ## Vector store (src/backend/knowledge_engine/vector_store.py)

`VectorStore` keeps a FAISS `IndexFlatL2` (a flat list of vectors, the
vector at position `i` belongs to chunk id `i`), a parallel `metadata`
list, and the dict `id_to_paper : str(chunk_id) -> paper_id`.
Embeddings are modelled as integer vectors and the FAISS L2 metric as
the exact squared euclidean distance (FAISS returns squared L2
distances for `IndexFlatL2`). -/

/-- An embedding vector (exact integers stand in for float32 entries). -/
abbrev Emb := List Int

/-- Squared L2 distance between two vectors, the quantity FAISS
`IndexFlatL2.search` reports as the distance. -/
def l2 (q v : Emb) : Int :=
  ((q.zipWith (fun a b => (a - b) * (a - b)) v).foldr (· + ·) 0)

/-- The in-memory state of `VectorStore`. -/
structure VectorStore where
  index : List Emb
  metadata : List String
  id_to_paper : List (Nat × String)
deriving DecidableEq

/-- One element of the list returned by `VectorStore.search`. -/
structure SearchHit where
  chunk : String
  score : Rat
  distance : Int
  paper_id : String
deriving DecidableEq

/-- Chunk ids paired with their distance to the query, in chunk-id order
(the input FAISS scans). -/
def distPairs (s : VectorStore) (q : Emb) : List (Nat × Int) :=
  (List.range s.index.length).map (fun i => (i, l2 q (s.index.getD i [])))

/-- Ordering used to model the FAISS result order: ascending distance,
ties broken by ascending chunk id. -/
def hitLE (a b : Nat × Int) : Prop :=
  a.2 < b.2 ∨ (a.2 = b.2 ∧ a.1 ≤ b.1)

instance : DecidableRel hitLE := fun a b => by
  unfold hitLE; exact inferInstance

instance : IsTotal (Nat × Int) hitLE := by
  constructor
  intro a b
  unfold hitLE
  rcases lt_trichotomy a.2 b.2 with h | h | h
  · exact Or.inl (Or.inl h)
  · rcases Nat.le_total a.1 b.1 with h1 | h1
    · exact Or.inl (Or.inr ⟨h, h1⟩)
    · exact Or.inr (Or.inr ⟨h.symm, h1⟩)
  · exact Or.inr (Or.inl h)

instance : IsTrans (Nat × Int) hitLE := by
  constructor
  intro a b c hab hbc
  unfold hitLE at *
  rcases hab with h | ⟨he, hn⟩ <;> rcases hbc with h2 | ⟨he2, hn2⟩
  · exact Or.inl (h.trans h2)
  · exact Or.inl (he2 ▸ h)
  · exact Or.inl (he ▸ h2)
  · exact Or.inr ⟨he.trans he2, hn.trans hn2⟩

/-- All (chunk id, distance) pairs sorted the way FAISS returns them. -/
def nearestPairs (s : VectorStore) (q : Emb) : List (Nat × Int) :=
  List.insertionSort hitLE (distPairs s q)

/-- The result dict built for one returned chunk id:
`score = 1 / (1 + dist)`, `paper_id = id_to_paper.get(str(idx),
"unknown")`. -/
def mkHit (s : VectorStore) (p : Nat × Int) : SearchHit :=
  { chunk := s.metadata.getD p.1 ""
    score := 1 / (1 + (p.2 : Rat))
    distance := p.2
    paper_id := (dictGet s.id_to_paper p.1).getD "unknown" }

/-- `VectorStore.search`: empty index returns `[]`; otherwise `k` is
capped at `ntotal`, FAISS returns the `k` nearest ids with their
distances, and each id below `len(metadata)` becomes a result dict. -/
def search (s : VectorStore) (q : Emb) (k : Nat) : List SearchHit :=
  if s.index.length = 0 then []
  else
    ((nearestPairs s q).take (min k s.index.length)).filterMap (fun p =>
      if p.1 < s.metadata.length then some (mkHit s p) else none)

/-- The scan inside `VectorStore.delete_paper`: for each chunk id `i` it
inspects `id_to_paper.get(str(i))`; ids mapped to the deleted paper are
dropped, others are kept as (metadata, reconstructed embedding, paper)
triples.  `none` models a Python exception: a missing key sends the
code into the keep branch (`None != paper_id`) where the direct
`id_to_paper[str(i)]` access raises `KeyError`, and `index.reconstruct(i)`
raises when `i` is out of the index bounds. -/
def deleteScan (s : VectorStore) (paper : String) :
    List Nat → Option (List (String × Emb × String))
  | [] => some []
  | i :: rest =>
    match dictGet s.id_to_paper i with
    | none => none
    | some p =>
      if p = paper then deleteScan s paper rest
      else
        match s.metadata.get? i, s.index.get? i with
        | some c, some e =>
          (deleteScan s paper rest).map (fun tl => (c, e, p) :: tl)
        | _, _ => none

/-- Rebuild the dict `str(new_id) -> paper` for the kept triples, with
consecutive keys starting at `j`, mirroring the running
`new_id_to_paper[str(len(chunks_to_keep) - 1)] = ...` assignments. -/
def rebuiltMapFrom (j : Nat) : List (String × Emb × String) → List (Nat × String)
  | [] => []
  | t :: rest => (j, t.2.2) :: rebuiltMapFrom (j + 1) rest

/-- The rebuilt dict of `delete_paper`: keys `0..len(kept)-1`. -/
def rebuiltMap (kept : List (String × Emb × String)) : List (Nat × String) :=
  rebuiltMapFrom 0 kept

/-- `VectorStore.delete_paper`: scans all chunk ids, and when at least
one chunk was dropped rebuilds the index, metadata and id map from the
kept triples and persists (`_save_index`).  The result is
`(deleted_count, new store, whether _save_index ran)`; `none` models a
raised exception. -/
def delete_paper (s : VectorStore) (paper : String) :
    Option (Nat × VectorStore × Bool) :=
  (deleteScan s paper (List.range s.metadata.length)).map (fun kept =>
    let deleted := s.metadata.length - kept.length
    if 0 < deleted then
      (deleted,
       { index := kept.map (fun t => t.2.1)
         metadata := kept.map (fun t => t.1)
         id_to_paper := rebuiltMap kept },
       true)
    else (0, s, false))

/-- `VectorStore.get_all_papers`: the deduplicated dict values
(`list(set(self.id_to_paper.values()))`; only membership matters, the
Python set order is arbitrary). -/
def get_all_papers (s : VectorStore) : List String :=
  (s.id_to_paper.map (fun kv => kv.2)).dedup

/-- Well-formedness of a store as maintained by the class API: index and
metadata are aligned, every chunk id below the metadata length has a
dict entry, dict keys are unique (Python dict) and in range. -/
def StoreWF (s : VectorStore) : Prop :=
  s.index.length = s.metadata.length ∧
  (∀ i < s.metadata.length, (dictGet s.id_to_paper i).isSome) ∧
  (∀ kv ∈ s.id_to_paper, kv.1 < s.metadata.length) ∧
  (s.id_to_paper.map (fun kv => kv.1)).Nodup

instance (s : VectorStore) : Decidable (StoreWF s) := by
  unfold StoreWF; exact inferInstance

/-- The triple `delete_paper` keeps for chunk id `i` (`none` when the
chunk belongs to the deleted paper or has no dict entry). -/
def keptFun (s : VectorStore) (paper : String) (i : Nat) :
    Option (String × Emb × String) :=
  (dictGet s.id_to_paper i).bind (fun p =>
    if p = paper then none
    else some (s.metadata.getD i "", s.index.getD i [], p))

/-- Specification of the triples `delete_paper` keeps: chunk ids in
order whose paper differs from the deleted one. -/
def keptSpec (s : VectorStore) (paper : String) : List (String × Emb × String) :=
  (List.range s.metadata.length).filterMap (keptFun s paper)

/-! ## Document chunker (src/backend/knowledge_engine/chunking.py)

Text is a `List Char`; Python string slices (which accept negative
indices) are modelled by `pySlice` over `Int` endpoints, since the loop
in `chunk_text` computes positions with plain integer arithmetic. -/

/-- Python `\s` over the ASCII range: space, tab, newline, carriage
return, vertical tab, form feed. -/
def isPySpace (c : Char) : Bool :=
  c = ' ' ∨ c.toNat = 9 ∨ c.toNat = 10 ∨ c.toNat = 13 ∨ c.toNat = 11 ∨ c.toNat = 12

/-- Worker for `collapseWs`: `prevSpace` records whether the previous
character belonged to a whitespace run already replaced. -/
def collapseWsAux (prevSpace : Bool) : List Char → List Char
  | [] => []
  | c :: rest =>
    if isPySpace c then
      if prevSpace then collapseWsAux true rest
      else ' ' :: collapseWsAux true rest
    else c :: collapseWsAux false rest

/-- `re.sub(r"\s+", " ", text)`: every maximal whitespace run becomes a
single space. -/
def collapseWs (l : List Char) : List Char := collapseWsAux false l

/-- Characters removed by `re.sub(r"[\x00-\x08\x0b-\x0c\x0e-\x1f\x7f-\x9f]", "", text)`. -/
def isCtrlRemoved (c : Char) : Bool :=
  c.toNat ≤ 8 ∨ c.toNat = 11 ∨ c.toNat = 12 ∨
  (14 ≤ c.toNat ∧ c.toNat ≤ 31) ∨ (127 ≤ c.toNat ∧ c.toNat ≤ 159)

/-- Python `str.strip()`: drop leading and trailing whitespace. -/
def stripChars (l : List Char) : List Char :=
  ((l.dropWhile isPySpace).reverse.dropWhile isPySpace).reverse

/-- `DocumentChunker._clean_text`: collapse whitespace runs to a single
space, remove control characters, strip. -/
def clean_text (l : List Char) : List Char :=
  stripChars ((collapseWs l).filter (fun c => ¬ isCtrlRemoved c))

/-- Python slice `l[a:b]` for possibly negative `Int` endpoints:
negative indices count from the end, then both are clamped to
`[0, len]`. -/
def pySlice (l : List Char) (a b : Int) : List Char :=
  let n : Int := l.length
  let a2 : Int := if a < 0 then max (n + a) 0 else a
  let b2 : Int := if b < 0 then max (n + b) 0 else b
  (l.take b2.toNat).drop a2.toNat

/-- Python `str.rfind(c)` on a list of characters: index of the last
occurrence, `-1` if absent. -/
def rfindChar (l : List Char) (c : Char) : Int :=
  match (l.enum.filter (fun p => p.2 = c)).getLast? with
  | some p => (p.1 : Int)
  | none => -1

/-- One chunk record produced by `DocumentChunker.chunk_text`
(the attached per-document metadata dict is not modelled: it is passed
through untouched). -/
structure PyChunk where
  text : List Char
  chunk_id : Nat
  start_char : Int
  end_char : Int
deriving DecidableEq

/-- The `while start < len(text)` loop of `DocumentChunker.chunk_text`,
with explicit fuel (`none` = fuel exhausted; the Python loop can fail
to terminate for adversarial `(S, O)`).  Mirrors, in order: the
tentative end `start + S`, the sentence-boundary adjustment (last `.`
or newline past `S // 2`), the per-chunk `strip()`, skipping empty
chunks, `start = end - O`, and the final `start >= len(text) - O`
break. -/
def chunkLoop (S O : Nat) (t : List Char) :
    Nat → Int → Nat → Option (List PyChunk)
  | 0, _, _ => none
  | fuel + 1, start, cid =>
    if start < (t.length : Int) then
      let end0 : Int := start + (S : Int)
      let endF : Int :=
        if end0 < (t.length : Int) then
          let sl := pySlice t start end0
          let bp : Int := max (rfindChar sl '.') (rfindChar sl '\n')
          if bp > ((S / 2 : Nat) : Int) then start + bp + 1 else end0
        else end0
      let ctext := stripChars (pySlice t start endF)
      let nextStart : Int := endF - (O : Int)
      if ctext = [] then
        if nextStart ≥ (t.length : Int) - (O : Int) then some []
        else chunkLoop S O t fuel nextStart cid
      else
        let ch : PyChunk := ⟨ctext, cid, start, endF⟩
        if nextStart ≥ (t.length : Int) - (O : Int) then some [ch]
        else (chunkLoop S O t fuel nextStart (cid + 1)).map (fun tl => ch :: tl)
    else some []

/-- `DocumentChunker.chunk_text` (with `chunk_size = S`,
`chunk_overlap = O`): empty or whitespace-only input yields `[]`,
otherwise the cleaned text is chunked by `chunkLoop`. -/
def chunk_text (fuel S O : Nat) (t0 : List Char) : Option (List PyChunk) :=
  if t0 = [] ∨ stripChars t0 = [] then some []
  else chunkLoop S O (clean_text t0) fuel 0 0

/-- Reconstruction used by the round-trip claim: concatenate the chunk
texts, dropping the `O`-character overlap from every chunk after the
first. -/
def rejoin (O : Nat) : List PyChunk → List Char
  | [] => []
  | c :: rest => c.text ++ (rest.map (fun d => d.text.drop O)).flatten

/-- Chain conditions on the chunks after the first, relative to the
previous chunk's end `e`: the next chunk starts exactly `O` before `e`,
does not regress, and its text is the raw (unstripped) slice of the
cleaned text; the final end must reach the end of the text. -/
def chainFrom (O : Nat) (clean : List Char) : Int → List PyChunk → Prop
  | e, [] => (clean.length : Int) ≤ e
  | e, c :: rest =>
    (O : Int) ≤ e ∧ c.start_char = e - (O : Int) ∧ e ≤ c.end_char ∧
    c.text = pySlice clean c.start_char c.end_char ∧
    chainFrom O clean c.end_char rest

/-! ## Safety gate (src/backend/orchestration/nodes.py `red_flag_node`)

The three destructive regex patterns are decided by direct scanning;
`\w`, `\s` and `str.lower()` are modelled over the ASCII range the
patterns use. -/

/-- Regex `\w`: letters, digits, underscore. -/
def isWordChar (c : Char) : Bool := c.isAlphanum || c = '_'

/-- The literal `w` occurs in `cs` at position `i`. -/
def litAt (cs : List Char) (i : Nat) (w : List Char) : Bool :=
  (cs.drop i).take w.length = w

/-- Regex `\b` holds just before position `i`. -/
def boundaryBefore (cs : List Char) (i : Nat) : Bool :=
  i = 0 || !isWordChar (cs.getD (i - 1) ' ')

/-- Regex `\b` holds just after position `j` (exclusive end of a match). -/
def boundaryAfter (cs : List Char) (j : Nat) : Bool :=
  cs.length ≤ j || !isWordChar (cs.getD j ' ')

/-- Length of the whitespace run starting at position `j`. -/
def spaceRunFrom (cs : List Char) (j : Nat) : Nat :=
  ((cs.drop j).takeWhile isPySpace).length

/-- One of the alternative words matches at `k` with a `\b` after it. -/
def altAt (cs : List Char) (k : Nat) (ws : List (List Char)) : Bool :=
  ws.any (fun w => litAt cs k w && boundaryAfter cs (k + w.length))

/-- Alternatives of pattern 1: `(all|everything|files?|emails?)`. -/
def altWords1 : List (List Char) :=
  [("all".data), ("everything".data), ("files".data), ("file".data),
   ("emails".data), ("email".data)]

/-- Alternatives of pattern 2: `(all|everything)`. -/
def altWords2 : List (List Char) := [("all".data), ("everything".data)]

/-- A verb-plus-object pattern `\bVERB\s+(ALTS)\b` matches at `i`. -/
def verbObjAt (cs : List Char) (i : Nat) (verb : List Char)
    (ws : List (List Char)) : Bool :=
  boundaryBefore cs i && litAt cs i verb &&
    (let j := i + verb.length
     let m := spaceRunFrom cs j
     decide (1 ≤ m) && altAt cs (j + m) ws)

/-- `re.search` of the three destructive patterns of `red_flag_node`
over the lower-cased query. -/
def destructiveMatch (cs : List Char) : Bool :=
  (List.range cs.length).any (fun i =>
    verbObjAt cs i ("delete".data) altWords1 ||
    verbObjAt cs i ("remove".data) altWords2 ||
    (boundaryBefore cs i && litAt cs i ("destroy".data) &&
      boundaryAfter cs (i + 7)))

/-- Python `query.lower()` over the characters of the query. -/
def lowerData (s : String) : List Char := s.data.map Char.toLower

/-- The fixed refusal string `red_flag_node` places in
`final_response` (byte-for-byte, including the trailing space on the
first line and the bullet characters). -/
def cannedRefusal : String :=
  "I cannot assist with destructive operations. \n\nI" ++ aposS ++
  "m here to help with:\n• Answering technical questions\n• Searching emails and documents\n• Managing calendar events\n• Retrieving knowledge from our database\n\nHow can I help you with these tasks?"

/-! ## Legacy orchestrator (src/backend/orchestration/orchestrator.py)

The LangGraph graph `red_flag -> (END | planning) -> 4 agents ->
response_generation -> confidence_check -> (planning | END)` is run as
an explicit state-passing loop with fuel.  The LLM and the tool servers
(agent_manager) are oracles indexed by the pass number; instrumentation
fields record which nodes ran and how many tool-server calls were
issued. -/

/-- Outcome of the planning node's LLM call, after the try/except and
the JSON-array extraction. -/
inductive PlanOut
  | exn (e : String)
  | noJson
  | intents (l : List String)
deriving DecidableEq

/-- Outcome of the confidence node's LLM call: exception, no JSON
object found, or a parsed object with optional `score` and the
truthiness of `retry_needed`. -/
inductive ConfResult
  | exn
  | noJson
  | parsed (score : Option Rat) (rn : Bool)
deriving DecidableEq

/-- Oracles for the legacy graph, indexed by retry pass. -/
structure LegacyOracles where
  planning : Nat → PlanOut
  gmail : Nat → Except String String
  calendar : Nat → Except String String
  drive : Nat → Except String String
  rag : Nat → Except String String
  respGen : Nat → Except String String
  conf : Nat → ConfResult

/-- The `AgentState` fields the claims touch, plus instrumentation:
`executedNodes` (nodes in execution order) and `toolCalls`
(agent-manager invocations).  `tools_used` and `errors` are
`operator.add` reducer fields, so nodes append to them. -/
structure LegacyState where
  user_query : String
  red_flag : Bool
  intent_categories : List String
  gmail_results : Option String
  calendar_results : Option String
  drive_results : Option String
  rag_results : Option String
  final_response : String
  confidence_score : Rat
  iteration_count : Nat
  errors : List String
  tools_used : List String
  executedNodes : List String
  toolCalls : Nat
deriving DecidableEq

/-- `red_flag_node`: regex scan over the lower-cased query; on a match
it sets the flag and the canned refusal, else only the flag. -/
def red_flag_node (s : LegacyState) : LegacyState :=
  let s := { s with executedNodes := s.executedNodes ++ ["red_flag"] }
  if destructiveMatch (lowerData s.user_query) then
    { s with red_flag := true, final_response := cannedRefusal }
  else { s with red_flag := false }

/-- `should_continue_to_agents`: `True` means route `"agents"`,
`False` means `"end"`. -/
def should_continue_to_agents (s : LegacyState) : Bool := !s.red_flag

/-- `planning_node`: intents from the parsed JSON array, `["general"]`
when no array is found, and `["general"]` plus an error record when the
LLM call raises. -/
def planning_node (o : PlanOut) (s : LegacyState) : LegacyState :=
  let s := { s with executedNodes := s.executedNodes ++ ["planning"] }
  match o with
  | .intents l => { s with intent_categories := l }
  | .noJson => { s with intent_categories := ["general"] }
  | .exn e =>
    { s with intent_categories := ["general"],
             errors := s.errors ++ ["Intent classification failed: " ++ e] }

/-- Shared shape of the four agent nodes: skip unless the intent is
present; otherwise one agent-manager (tool-server) call which either
stores results and reports the tool, or records an error. -/
def agentNode (name intent errTag : String)
    (setRes : LegacyState → String → LegacyState)
    (o : Except String String) (s : LegacyState) : LegacyState :=
  let s := { s with executedNodes := s.executedNodes ++ [name] }
  if intent ∈ s.intent_categories then
    match o with
    | .ok r =>
      let s := setRes s r
      { s with tools_used := s.tools_used ++ [intent], toolCalls := s.toolCalls + 1 }
    | .error e =>
      { s with errors := s.errors ++ [errTag ++ e], toolCalls := s.toolCalls + 1 }
  else s

/-- `gmail_agent_node`. -/
def gmail_agent_node (o : Except String String) (s : LegacyState) : LegacyState :=
  agentNode "gmail_agent" "gmail" "Gmail: " (fun s r => { s with gmail_results := some r }) o s

/-- `calendar_agent_node`. -/
def calendar_agent_node (o : Except String String) (s : LegacyState) : LegacyState :=
  agentNode "calendar_agent" "calendar" "Calendar: " (fun s r => { s with calendar_results := some r }) o s

/-- `drive_agent_node`. -/
def drive_agent_node (o : Except String String) (s : LegacyState) : LegacyState :=
  agentNode "drive_agent" "drive" "Drive: " (fun s r => { s with drive_results := some r }) o s

/-- `rag_agent_node`. -/
def rag_agent_node (o : Except String String) (s : LegacyState) : LegacyState :=
  agentNode "rag_agent" "rag" "RAG: " (fun s r => { s with rag_results := some r }) o s

/-- `response_generation_node`: final response from the LLM, or the
fixed apology plus an error record if the call raises. -/
def response_generation_node (o : Except String String) (s : LegacyState) : LegacyState :=
  let s := { s with executedNodes := s.executedNodes ++ ["response_generation"] }
  match o with
  | .ok r => { s with final_response := r }
  | .error e =>
    { s with final_response := "I encountered an error generating the response.",
             errors := s.errors ++ ["Response generation: " ++ e] }

/-- `confidence_check_node`: at `iteration_count >= 2` it short-circuits
to score `0.5`; otherwise the LLM verdict is parsed, the score defaults
to `0.9`, and the iteration counter is incremented only when the model
set `retry_needed` (and the counter is still below 2).  Exceptions give
score `0.5`. Floats are modelled as exact rationals. -/
def confidence_check_node (c : ConfResult) (s : LegacyState) : LegacyState :=
  let s := { s with executedNodes := s.executedNodes ++ ["confidence_check"] }
  if 2 ≤ s.iteration_count then { s with confidence_score := ratHalf }
  else
    match c with
    | .exn => { s with confidence_score := ratHalf }
    | .noJson => { s with confidence_score := ratNineTenths }
    | .parsed sc rn =>
      let s := { s with confidence_score := sc.getD ratNineTenths }
      if rn ∧ s.iteration_count < 2 then
        { s with iteration_count := s.iteration_count + 1 }
      else s

/-- `should_retry`: `True` means route `"retry"` (back to planning). -/
def should_retry (s : LegacyState) : Bool :=
  if 2 ≤ s.iteration_count then false
  else decide (s.confidence_score < ratThreeFifths)

/-- The planning → agents → response → confidence cycle, with fuel
(the framework recursion limit is outside this code; exhausted fuel
returns the state reached so far). -/
def legacyLoop (o : LegacyOracles) : Nat → Nat → LegacyState → LegacyState
  | 0, _, s => s
  | fuel + 1, pass, s =>
    let s := planning_node (o.planning pass) s
    let s := gmail_agent_node (o.gmail pass) s
    let s := calendar_agent_node (o.calendar pass) s
    let s := drive_agent_node (o.drive pass) s
    let s := rag_agent_node (o.rag pass) s
    let s := response_generation_node (o.respGen pass) s
    let s := confidence_check_node (o.conf pass) s
    if should_retry s then legacyLoop o fuel (pass + 1) s else s

/-- The initial `AgentState` built by `process_message`. -/
def initialLegacyState (q : String) : LegacyState :=
  { user_query := q, red_flag := false, intent_categories := []
    gmail_results := none, calendar_results := none, drive_results := none
    rag_results := none, final_response := "", confidence_score := 0
    iteration_count := 0, errors := [], tools_used := []
    executedNodes := [], toolCalls := 0 }

/-- One full run of the legacy graph: `red_flag`, then either END (flag
raised) or the retry loop. -/
def runLegacy (o : LegacyOracles) (fuel : Nat) (q : String) : LegacyState :=
  let s := red_flag_node (initialLegacyState q)
  if should_continue_to_agents s then legacyLoop o fuel 0 s else s

/-- Number of times the planning node executed in a run. -/
def planningCount (s : LegacyState) : Nat :=
  s.executedNodes.countP (· = "planning")

/-! ## Smart orchestrator (src/backend/orchestration/wow_orchestration.py)

Context strings are `List Char` so that Python string slicing and
length arithmetic stay elementary.  Provider/LLM calls are oracles;
`rag`/`club` providers are modelled at the provider boundary (their
`search` methods return `ContextItem` lists and internally swallow
exceptions). -/

/-- A `ContextItem`; only the `query` key of its metadata dict is
modelled (the headers read `metadata.get("query", "unknown")`, and
every item constructed by the providers carries it). -/
structure ContextItem where
  source : List Char
  content : List Char
  relevance_score : Rat
  query : List Char
deriving DecidableEq

/-- A `WorkerTask` (the `parameters` dict is not modelled; no claim
reads it). -/
structure WorkerTask where
  id : Int
  title : List Char
  worker_type : List Char
  description : List Char
  requires_context : Bool
  context_type : Option (List Char)
  google_service : Option (List Char)
deriving DecidableEq

/-- An `ExecutionPlan`. -/
structure ExecutionPlan where
  needs_context : Bool
  context_type : Option (List Char)
  reasoning : List Char
  tasks : List WorkerTask
  search_queries : List (List Char)
  rag_queries : List (List Char)
  club_queries : List (List Char)
deriving DecidableEq

/-- A `TaskResult`. -/
structure TaskResult where
  task_id : Int
  worker_type : List Char
  success : Bool
  output : List Char
  used_context : Bool
  error : Option (List Char)
deriving DecidableEq

/-- Oracles for the smart orchestrator: the structured-output planner
call, per-query provider outcomes, per-task worker LLM outcomes, and
the fusion LLM of the aggregator. -/
structure WowOracles where
  planner : Except String ExecutionPlan
  web : List Char → Except (List Char) (List Char)
  ragItems : List Char → List ContextItem
  clubItems : List Char → List ContextItem
  conv : Int → Except (List Char) (List Char)
  github : Int → Except (List Char) (List Char)
  google : Int → Except (List Char) (List Char)
  fusion : List Char → List Char

/-- Relevance-descending comparison; `insertionSort` with it is stable,
matching Python `sorted(key=..., reverse=True)`. -/
def relDesc (a b : ContextItem) : Prop := b.relevance_score ≤ a.relevance_score

instance : DecidableRel relDesc := fun a b => by
  unfold relDesc; exact inferInstance

/-- `sorted(items, key=lambda x: x.relevance_score, reverse=True)`. -/
def sortByRelevance (items : List ContextItem) : List ContextItem :=
  List.insertionSort relDesc items

/-- `WebSearchProvider.search`: on success a single item with the agent
content truncated to 1000 characters and relevance `0.9`; on an
exception a single item holding the error note with relevance `0.1`. -/
def webProviderSearch (o : WowOracles) (q : List Char) : List ContextItem :=
  match o.web q with
  | .ok content =>
    [{ source := "web_search".data, content := content.take 1000
       relevance_score := ratNineTenths, query := q }]
  | .error e =>
    [{ source := "web_search".data
       content := ("Wikipedia search failed for: ".data ++ q ++ ". Error: ".data ++ e.take 100)
       relevance_score := ratOneTenth, query := q }]

/-- Per-item header plus content used inside a provider node's
`combined` string: `[<label> '<query>']\n<content>`. -/
def headerLine (label : List Char) (it : ContextItem) : List Char :=
  "[".data ++ label ++ ": ".data ++ [aposC] ++ it.query ++ [aposC] ++ "]".data ++
  "\n".data ++ it.content

/-- Shared tail of the three provider nodes: sort all gathered items by
relevance descending and join their header lines with blank lines.
No truncation happens here. -/
def combineItems (label : List Char) (items : List ContextItem) : List Char :=
  joinSep ("\n\n".data) ((sortByRelevance items).map (headerLine label))

/-- `web_search_node`: search the first two `search_queries`, then
build `(web_context, combined_context)`. -/
def web_search_node (o : WowOracles) (plan : ExecutionPlan) :
    List ContextItem × List Char :=
  let items := ((plan.search_queries.take 2).map (webProviderSearch o)).flatten
  (items, combineItems ("Web Search".data) items)

/-- `rag_search_node`: provider outcomes per query (first two
`rag_queries`), combined under `[RAG Search: '...']` headers. -/
def rag_search_node (o : WowOracles) (plan : ExecutionPlan) :
    List ContextItem × List Char :=
  let items := ((plan.rag_queries.take 2).map o.ragItems).flatten
  (items, combineItems ("RAG Search".data) items)

/-- `club_search_node`: provider outcomes per query (first two
`club_queries`), combined under `[Club Search: '...']` headers. -/
def club_search_node (o : WowOracles) (plan : ExecutionPlan) :
    List ContextItem × List Char :=
  let items := ((plan.club_queries.take 2).map o.clubItems).flatten
  (items, combineItems ("Club Search".data) items)

/-- The context-related state fields a context node returns. -/
structure CtxUpd where
  web_context : List ContextItem
  rag_context : List ContextItem
  club_context : List ContextItem
  combined_context : List Char
deriving DecidableEq

/-- `gather_mixed_context_node`: run web/rag/club sub-nodes for the
non-empty query lists, append each non-empty `combined_context` part,
re-sort all items by relevance, and truncate the joined parts at the
3000-character budget. -/
def gather_mixed_context_node (o : WowOracles) (plan : ExecutionPlan) : CtxUpd :=
  let webR := web_search_node o plan
  let ragR := rag_search_node o plan
  let clubR := club_search_node o plan
  let all1 := if plan.search_queries ≠ [] then webR.1 else []
  let parts1 := if plan.search_queries ≠ [] ∧ webR.2 ≠ [] then [webR.2] else []
  let all2 := if plan.rag_queries ≠ [] then ragR.1 else []
  let parts2 := if plan.rag_queries ≠ [] ∧ ragR.2 ≠ [] then [ragR.2] else []
  let all3 := if plan.club_queries ≠ [] then clubR.1 else []
  let parts3 := if plan.club_queries ≠ [] ∧ clubR.2 ≠ [] then [clubR.2] else []
  let allSorted := sortByRelevance (all1 ++ all2 ++ all3)
  { web_context := allSorted.filter (fun c => c.source = "web_search".data)
    rag_context := allSorted.filter (fun c => c.source = "rag".data)
    club_context := allSorted.filter (fun c => c.source = "club_search".data)
    combined_context := (joinSep ("\n\n".data) (parts1 ++ parts2 ++ parts3)).take 3000 }

/-- Routes out of `route_after_planning`. -/
inductive Route
  | webSearch | ragSearch | clubSearch | gatherMixed | executeTasks
deriving DecidableEq

/-- `route_after_planning` (the string node names become `Route`
constructors). -/
def route_after_planning (p : Option ExecutionPlan) : Route :=
  match p with
  | none => .executeTasks
  | some plan =>
    if !plan.needs_context then .executeTasks
    else
      match plan.context_type with
      | some ct =>
        if ct = "web".data then .webSearch
        else if ct = "rag".data then .ragSearch
        else if ct = "club".data then .clubSearch
        else if ct = "mixed".data then .gatherMixed
        else .executeTasks
      | none => .executeTasks

/-- `planning_agent_node`: a successful structured-output call yields
`{plan, tasks}`; an exception is logged and re-raised (`raise`), so it
propagates to the caller. -/
def planning_agent_node (o : Except String ExecutionPlan) :
    Except String (ExecutionPlan × List WorkerTask) :=
  match o with
  | .ok p => .ok (p, p.tasks)
  | .error e => .error e

/-- Worker dispatch of `fanout_to_workers`: github if
`worker_type == "github"`, Google Workspace if the worker type starts
with `google_` or a `google_service` is set, conversational
otherwise. -/
inductive WorkerKind | github | google | conversational
deriving DecidableEq

/-- Choose the worker node for a task. -/
def workerFor (t : WorkerTask) : WorkerKind :=
  if t.worker_type = "github".data then .github
  else if ("google_".data).isPrefixOf t.worker_type ∨ t.google_service.isSome then .google
  else .conversational

/-- Run one worker on its payload.  Success wraps the LLM/agent output;
failure produces the worker's `success=False` result with its fixed
message shape (the GitHub worker's missing-PAT and no-tools branches
are folded into the error oracle). -/
def runWorkerNode (o : WowOracles) (ctx : List Char) (t : WorkerTask) : TaskResult :=
  let useCtx := t.requires_context && ctx ≠ []
  match workerFor t with
  | .conversational =>
    match o.conv t.id with
    | .ok out =>
      { task_id := t.id, worker_type := "conversational".data, success := true
        output := out, used_context := useCtx, error := none }
    | .error e =>
      { task_id := t.id, worker_type := "conversational".data, success := false
        output := "Failed to generate response: ".data ++ e, used_context := useCtx
        error := some e }
  | .github =>
    match o.github t.id with
    | .ok out =>
      { task_id := t.id, worker_type := "github".data, success := true
        output := out, used_context := useCtx, error := none }
    | .error e =>
      { task_id := t.id, worker_type := "github".data, success := false
        output := "GitHub operation failed: ".data ++ e, used_context := useCtx
        error := some e }
  | .google =>
    let wt := "google_".data ++ (t.google_service.getD [])
    match o.google t.id with
    | .ok out =>
      { task_id := t.id, worker_type := wt, success := true
        output := out, used_context := useCtx, error := none }
    | .error e =>
      { task_id := t.id, worker_type := wt, success := false
        output := "Google Workspace operation failed: ".data ++ e
        used_context := useCtx, error := some e }

/-- `fanout_to_workers` plus the worker superstep: one `Send` per task
in the order of `plan.tasks`; the `results` field uses the
`operator.add` reducer, so the collected list concatenates the worker
updates in send-creation order, i.e. task-list order. -/
def fanout_results (o : WowOracles) (ctx : List Char) (tasks : List WorkerTask) :
    List TaskResult :=
  tasks.map (runWorkerNode o ctx)

/-- The `[WORKER_TYPE] output[:400]...` blocks of the fusion prompt, in
the order of the consumed results list. -/
def resultsTextOf (rs : List TaskResult) : List Char :=
  joinSep ("\n\n".data) (rs.map (fun r =>
    "[".data ++ r.worker_type.map Char.toUpper ++ "] ".data ++
    r.output.take 400 ++ "...".data))

/-- The fusion prompt of `results_aggregator_node`. -/
def fusionPrompt (q t : List Char) : List Char :=
  "\nOriginal Query: ".data ++ q ++
  "\n\nResults from different workers:\n".data ++ t ++
  "\n\nProvide a coherent final response that addresses the user".data ++
  [aposC] ++
  "s original query.\nIntegrate information from different services smoothly.\nBe concise and helpful.\n".data

/-- `results_aggregator_node`: no results gives a fixed message, one
result is used verbatim, several results are embedded into the fusion
prompt in the order of the results list and the LLM reply is the final
response. -/
def results_aggregator_node (fusion : List Char → List Char) (q : List Char)
    (results : List TaskResult) : List Char :=
  match results with
  | [] => "No tasks were executed.".data
  | [r] => r.output
  | rs => fusion (fusionPrompt q (resultsTextOf rs))

/-- Final state of one smart-orchestrator graph run. -/
structure WowFinal where
  ctx : CtxUpd
  results : List TaskResult
  final_response : List Char
deriving DecidableEq

/-- One graph run: planning (exceptions propagate), context routing,
worker fan-out/fan-in, aggregation. -/
def wowGraphRun (o : WowOracles) (q : List Char) : Except String WowFinal :=
  match planning_agent_node o.planner with
  | .error e => .error e
  | .ok (plan, tasks) =>
    let emptyCtx : CtxUpd :=
      { web_context := [], rag_context := [], club_context := [], combined_context := [] }
    let ctx : CtxUpd :=
      match route_after_planning (some plan) with
      | .webSearch =>
        let r := web_search_node o plan
        { emptyCtx with web_context := r.1, combined_context := r.2 }
      | .ragSearch =>
        let r := rag_search_node o plan
        { emptyCtx with rag_context := r.1, combined_context := r.2 }
      | .clubSearch =>
        let r := club_search_node o plan
        { emptyCtx with club_context := r.1, combined_context := r.2 }
      | .gatherMixed => gather_mixed_context_node o plan
      | .executeTasks => emptyCtx
    let results := fanout_results o ctx.combined_context tasks
    .ok { ctx := ctx, results := results
          final_response := results_aggregator_node o.fusion q results }

/-- What `SmartOrchestrator.process` returns. -/
structure ProcResult where
  success : Bool
  response : List Char
deriving DecidableEq

/-- `SmartOrchestrator.process`: input validation, then the graph run
inside try/except; an escaping exception becomes the
`Orchestrator error: ...` failure response. -/
def wowProcess (o : WowOracles) (q : List Char) : ProcResult :=
  if stripChars q = [] then
    { success := false, response := "Please provide a valid query.".data }
  else if 5000 < q.length then
    { success := false
      response := "Query is too long. Please keep it under 5000 characters.".data }
  else
    match wowGraphRun o (stripChars q) with
    | .ok st => { success := true, response := st.final_response }
    | .error e => { success := false, response := "Orchestrator error: ".data ++ e.data }

/-- Modelled from the spec: the default plan §4.9 requires the planner
to substitute when the model returns malformed JSON
(`needs_context=false, tasks=[{id:1, worker_kind:conversational}]`).
Used only to compare the code's behaviour against the claim. -/
def specDefaultPlan : ExecutionPlan :=
  { needs_context := false, context_type := none, reasoning := []
    tasks := [{ id := 1, title := [], worker_type := "conversational".data
                description := [], requires_context := false
                context_type := none, google_service := none }]
    search_queries := [], rag_queries := [], club_queries := [] }

/-! ## Chat facade (src/backend/core/agent.py `AgentManager.chat`)

Thread store plus the send path.  Message ids and timestamps (uuid /
utcnow) are irrelevant to the claims and are not modelled; a message is
its role and content. -/

/-- A stored thread message. -/
structure ChatMsg where
  role : String
  content : String
deriving DecidableEq

/-- The `AgentManager` state the chat path touches. -/
structure AgentMgrState where
  initialized : Bool
  threads : List (String × List ChatMsg)
deriving DecidableEq

/-- `self.threads.get(thread_id)`. -/
def threadLookup (ts : List (String × List ChatMsg)) (tid : String) :
    Option (List ChatMsg) :=
  match ts with
  | [] => none
  | kv :: rest => if kv.1 = tid then some kv.2 else threadLookup rest tid

/-- `add_message`: append to the matching thread's message list. -/
def threadAppend (ts : List (String × List ChatMsg)) (tid : String)
    (m : ChatMsg) : List (String × List ChatMsg) :=
  ts.map (fun kv => if kv.1 = tid then (kv.1, kv.2 ++ [m]) else kv)

/-- Exceptions `AgentManager.chat` can raise. -/
inductive ChatExn
  | notInitialized
  | threadNotFound
  | orchestratorErr (e : String)
  | nameErrorResponse
deriving DecidableEq

/-- What the orchestrator hands back when it returns normally. -/
structure OrchReply where
  response : String
  tools_used : List String
deriving DecidableEq

/-- The record `chat` is documented to return. -/
structure ChatRecord where
  message : String
  thread_id : String
  tools_used : List String
deriving DecidableEq

/-- `AgentManager.chat` on an explicit thread id, with the orchestrator
outcome as an oracle.  After the initialization and thread checks the
user message is appended; inside the try block the orchestrator result
is unpacked, and then the dead statement
`final_message = response["messages"][-1].content` (agent.py line 584)
reads the local name `response`, which is never assigned in `chat`, so
every path that reaches it raises `NameError` — re-raised by the
`except` clause — before `add_message(thread_id, "assistant", ...)` or
the `return` run. -/
def agent_chat (st : AgentMgrState) (tid : String) (message : String)
    (orch : Except String OrchReply) :
    Except ChatExn ChatRecord × AgentMgrState :=
  if !st.initialized then (.error .notInitialized, st)
  else
    match threadLookup st.threads tid with
    | none => (.error .threadNotFound, st)
    | some _ =>
      let st1 : AgentMgrState :=
        { st with threads := threadAppend st.threads tid ⟨"user", message⟩ }
      match orch with
      | .error e => (.error (.orchestratorErr e), st1)
      | .ok _ => (.error .nameErrorResponse, st1)

/-! ## Theorems -/

/-- Claim C2: when the red-flag node trips on a query, the run ends at
the gate: the planning node never executes, no tool call is issued, no
tool is reported used, and the final response is the canned refusal
string byte-for-byte. -/
theorem red_flag_short_circuit (o : LegacyOracles) (fuel : Nat) (q : String)
    (h : destructiveMatch (lowerData q) = true) :
    (runLegacy o fuel q).final_response = cannedRefusal ∧
    "planning" ∉ (runLegacy o fuel q).executedNodes ∧
    (runLegacy o fuel q).toolCalls = 0 ∧
    (runLegacy o fuel q).tools_used = [] := by
  simp [runLegacy, red_flag_node, initialLegacyState, should_continue_to_agents, h]

/-- Oracle whose per-node outcomes are all benign (used by concrete
witness runs). -/
def benignOracles : LegacyOracles :=
  { planning := fun _ => .noJson
    gmail := fun _ => .ok ""
    calendar := fun _ => .ok ""
    drive := fun _ => .ok ""
    rag := fun _ => .ok ""
    respGen := fun _ => .ok "resp"
    conf := fun _ => .noJson }

/-- Witness for C2: the query `"delete all my emails"` trips the gate
and the conclusions hold on a concrete run. -/
theorem red_flag_short_circuit_witness :
    destructiveMatch (lowerData "delete all my emails") = true ∧
    ((runLegacy benignOracles 3 "delete all my emails").final_response = cannedRefusal ∧
     "planning" ∉ (runLegacy benignOracles 3 "delete all my emails").executedNodes ∧
     (runLegacy benignOracles 3 "delete all my emails").toolCalls = 0 ∧
     (runLegacy benignOracles 3 "delete all my emails").tools_used = []) :=
  ⟨by decide, red_flag_short_circuit benignOracles 3 "delete all my emails" (by decide)⟩

/-- Oracle for the C3 counterexample: the confidence LLM always reports
a low score with `retry_needed` false, so `should_retry` keeps routing
back to planning while `confidence_check_node` never increments the
counter. -/
def lowScoreNoRetryOracles : LegacyOracles :=
  { benignOracles with conf := fun _ => .parsed (some ratHalf) false }

/-- Claim C3 counterexample: a run in which the graph passes through
the planning node 10 times (far more than `1 + N = 3`), because the
iteration counter is incremented only when the model sets
`retry_needed`, while the retry edge fires on `score < 0.6` alone. -/
theorem plan_retry_unbounded :
    3 < planningCount (runLegacy lowScoreNoRetryOracles 10 "hello") := by decide

/-- Confidence verdicts under which the retry loop is well-behaved: the
check does not raise, and whenever the reported score is below the 0.6
threshold the model also sets `retry_needed` (so the counter is
incremented before re-entering planning). -/
def goodConf : ConfResult → Prop
  | .exn => False
  | .noJson => True
  | .parsed sc rn => sc.getD ratNineTenths < ratThreeFifths → rn = true

/-- Frame facts for `planning_node`: it does not touch the iteration
counter and appends exactly its own name to the executed-node trace. -/
theorem planning_node_frame (o : PlanOut) (s : LegacyState) :
    (planning_node o s).iteration_count = s.iteration_count ∧
    (planning_node o s).executedNodes = s.executedNodes ++ ["planning"] := by
  unfold planning_node; cases o <;> simp

/-- Frame facts for `gmail_agent_node`. -/
theorem gmail_agent_node_frame (o : Except String String) (s : LegacyState) :
    (gmail_agent_node o s).iteration_count = s.iteration_count ∧
    (gmail_agent_node o s).executedNodes = s.executedNodes ++ ["gmail_agent"] := by
  unfold gmail_agent_node agentNode
  by_cases hi : "gmail" ∈ s.intent_categories <;> cases o <;> simp [hi]

/-- Frame facts for `calendar_agent_node`. -/
theorem calendar_agent_node_frame (o : Except String String) (s : LegacyState) :
    (calendar_agent_node o s).iteration_count = s.iteration_count ∧
    (calendar_agent_node o s).executedNodes = s.executedNodes ++ ["calendar_agent"] := by
  unfold calendar_agent_node agentNode
  by_cases hi : "calendar" ∈ s.intent_categories <;> cases o <;> simp [hi]

/-- Frame facts for `drive_agent_node`. -/
theorem drive_agent_node_frame (o : Except String String) (s : LegacyState) :
    (drive_agent_node o s).iteration_count = s.iteration_count ∧
    (drive_agent_node o s).executedNodes = s.executedNodes ++ ["drive_agent"] := by
  unfold drive_agent_node agentNode
  by_cases hi : "drive" ∈ s.intent_categories <;> cases o <;> simp [hi]

/-- Frame facts for `rag_agent_node`. -/
theorem rag_agent_node_frame (o : Except String String) (s : LegacyState) :
    (rag_agent_node o s).iteration_count = s.iteration_count ∧
    (rag_agent_node o s).executedNodes = s.executedNodes ++ ["rag_agent"] := by
  unfold rag_agent_node agentNode
  by_cases hi : "rag" ∈ s.intent_categories <;> cases o <;> simp [hi]

/-- Frame facts for `response_generation_node`. -/
theorem response_generation_node_frame (o : Except String String) (s : LegacyState) :
    (response_generation_node o s).iteration_count = s.iteration_count ∧
    (response_generation_node o s).executedNodes = s.executedNodes ++ ["response_generation"] := by
  unfold response_generation_node; cases o <;> simp

/-- The confidence node appends its name to the trace and leaves the
iteration counter either unchanged or incremented by one. -/
theorem confidence_check_node_frame (c : ConfResult) (s : LegacyState) :
    (confidence_check_node c s).executedNodes = s.executedNodes ++ ["confidence_check"] ∧
    ((confidence_check_node c s).iteration_count = s.iteration_count ∨
     (confidence_check_node c s).iteration_count = s.iteration_count + 1) := by
  unfold confidence_check_node
  by_cases h2 : 2 ≤ s.iteration_count
  · simp [h2]
  · cases c with
    | exn => simp [h2]
    | noJson => simp [h2]
    | parsed sc rn =>
      by_cases hrn : rn = true ∧ s.iteration_count < 2
      · simp [h2, hrn]
      · simp [h2, hrn]

/-- When a good confidence verdict leads the router to retry, the
counter was incremented by that very verdict and was below 2 before. -/
theorem conf_retry_inc (c : ConfResult) (s : LegacyState) (hg : goodConf c)
    (hr : should_retry (confidence_check_node c s) = true) :
    (confidence_check_node c s).iteration_count = s.iteration_count + 1 ∧
    s.iteration_count < 2 := by
  by_cases h2 : 2 ≤ s.iteration_count
  · exfalso
    have hs2 : confidence_check_node c s =
        { s with executedNodes := s.executedNodes ++ ["confidence_check"],
                 confidence_score := ratHalf } := by
      simp [confidence_check_node, h2]
    rw [hs2] at hr
    simp [should_retry, h2] at hr
  · have hiter : s.iteration_count < 2 := by omega
    cases c with
    | exn => exact hg.elim
    | noJson =>
      exfalso
      have hs2 : confidence_check_node .noJson s =
          { s with executedNodes := s.executedNodes ++ ["confidence_check"],
                   confidence_score := ratNineTenths } := by
        simp [confidence_check_node, h2]
      rw [hs2] at hr
      simp [should_retry, h2] at hr
      exact absurd hr (by decide)
    | parsed sc rn =>
      simp only [goodConf] at hg
      by_cases hrn : rn = true ∧ s.iteration_count < 2
      · refine ⟨?_, hiter⟩
        simp [confidence_check_node, h2, hrn]
      · exfalso
        have hs2 : confidence_check_node (.parsed sc rn) s =
            { s with executedNodes := s.executedNodes ++ ["confidence_check"],
                     confidence_score := sc.getD ratNineTenths } := by
          simp [confidence_check_node, h2, hrn]
        rw [hs2] at hr
        simp [should_retry, h2] at hr
        exact hrn ⟨hg hr, hiter⟩

/-- Planning count through a state whose trace grew by one node. -/
theorem planningCount_eq (s t : LegacyState) (n : String)
    (h : t.executedNodes = s.executedNodes ++ [n]) :
    planningCount t = planningCount s + (if n = "planning" then 1 else 0) := by
  simp only [planningCount, h, List.countP_append, List.countP_cons, List.countP_nil]
  by_cases hn : n = "planning" <;> simp [hn]

/-- The graph pass up to (excluding) the confidence node. -/
def preBody (o : LegacyOracles) (pass : Nat) (s : LegacyState) : LegacyState :=
  response_generation_node (o.respGen pass)
    (rag_agent_node (o.rag pass)
      (drive_agent_node (o.drive pass)
        (calendar_agent_node (o.calendar pass)
          (gmail_agent_node (o.gmail pass)
            (planning_node (o.planning pass) s)))))

/-- One full pass of the retry loop body. -/
def passBody (o : LegacyOracles) (pass : Nat) (s : LegacyState) : LegacyState :=
  confidence_check_node (o.conf pass) (preBody o pass s)

/-- Unfolding equation of the loop in terms of `passBody`. -/
theorem legacyLoop_succ (o : LegacyOracles) (fuel pass : Nat) (s : LegacyState) :
    legacyLoop o (fuel + 1) pass s =
      if should_retry (passBody o pass s) then
        legacyLoop o fuel (pass + 1) (passBody o pass s)
      else passBody o pass s := rfl

/-- `preBody` preserves the iteration counter and adds one planning
execution to the trace. -/
theorem preBody_facts (o : LegacyOracles) (pass : Nat) (s : LegacyState) :
    (preBody o pass s).iteration_count = s.iteration_count ∧
    planningCount (preBody o pass s) = planningCount s + 1 := by
  obtain ⟨e1a, e1b⟩ := planning_node_frame (o.planning pass) s
  obtain ⟨e2a, e2b⟩ := gmail_agent_node_frame (o.gmail pass)
    (planning_node (o.planning pass) s)
  obtain ⟨e3a, e3b⟩ := calendar_agent_node_frame (o.calendar pass)
    (gmail_agent_node (o.gmail pass) (planning_node (o.planning pass) s))
  obtain ⟨e4a, e4b⟩ := drive_agent_node_frame (o.drive pass)
    (calendar_agent_node (o.calendar pass)
      (gmail_agent_node (o.gmail pass) (planning_node (o.planning pass) s)))
  obtain ⟨e5a, e5b⟩ := rag_agent_node_frame (o.rag pass)
    (drive_agent_node (o.drive pass)
      (calendar_agent_node (o.calendar pass)
        (gmail_agent_node (o.gmail pass) (planning_node (o.planning pass) s))))
  obtain ⟨e6a, e6b⟩ := response_generation_node_frame (o.respGen pass)
    (rag_agent_node (o.rag pass)
      (drive_agent_node (o.drive pass)
        (calendar_agent_node (o.calendar pass)
          (gmail_agent_node (o.gmail pass) (planning_node (o.planning pass) s)))))
  have p1 := planningCount_eq _ _ _ e1b
  have p2 := planningCount_eq _ _ _ e2b
  have p3 := planningCount_eq _ _ _ e3b
  have p4 := planningCount_eq _ _ _ e4b
  have p5 := planningCount_eq _ _ _ e5b
  have p6 := planningCount_eq _ _ _ e6b
  simp only [if_pos, if_neg, String.reduceEq, reduceIte] at p1 p2 p3 p4 p5 p6
  constructor
  · unfold preBody
    rw [e6a, e5a, e4a, e3a, e2a, e1a]
  · unfold preBody
    omega

/-- Planning executions are bounded along the retry loop: one per entry
plus at most one per remaining iteration-budget unit, provided the
confidence oracle is well-behaved. -/
theorem legacyLoop_planning_le (o : LegacyOracles) (hg : ∀ n, goodConf (o.conf n)) :
    ∀ fuel pass s, planningCount (legacyLoop o fuel pass s) ≤
      planningCount s + 1 + (2 - s.iteration_count) := by
  intro fuel
  induction fuel with
  | zero =>
    intro pass s
    simp only [legacyLoop]
    omega
  | succ fuel ih =>
    intro pass s
    rw [legacyLoop_succ]
    obtain ⟨hpre_it, hpre_pc⟩ := preBody_facts o pass s
    have hcf := confidence_check_node_frame (o.conf pass) (preBody o pass s)
    have hpc7 : planningCount (passBody o pass s) = planningCount s + 1 := by
      have := planningCount_eq _ _ _ hcf.1
      simp only [String.reduceEq, reduceIte] at this
      unfold passBody
      omega
    by_cases hr : should_retry (passBody o pass s)
    · obtain ⟨hinc, hlt⟩ := conf_retry_inc (o.conf pass) (preBody o pass s) (hg pass) hr
      rw [if_pos hr]
      have hb := ih (pass + 1) (passBody o pass s)
      have h7it : (passBody o pass s).iteration_count = s.iteration_count + 1 := by
        unfold passBody
        omega
      omega
    · rw [if_neg hr]
      omega

/-- Claim C3 (amended): the legacy run passes through the planning node
at most `1 + N = 3` times whenever the confidence LLM neither raises
nor reports a sub-threshold score without also setting `retry_needed`
(the code increments the iteration counter only on `retry_needed`, so
without that proviso the planning passes are unbounded, see the
counterexample). -/
theorem plan_retry_bound (o : LegacyOracles) (fuel : Nat) (q : String)
    (hg : ∀ n, goodConf (o.conf n)) :
    planningCount (runLegacy o fuel q) ≤ 3 := by
  unfold runLegacy
  by_cases hf : should_continue_to_agents (red_flag_node (initialLegacyState q))
  · rw [if_pos hf]
    have h0 : planningCount (red_flag_node (initialLegacyState q)) = 0 := by
      unfold red_flag_node initialLegacyState
      by_cases hd : destructiveMatch (lowerData q) <;> simp [hd, planningCount]
    have h1 : (red_flag_node (initialLegacyState q)).iteration_count = 0 := by
      unfold red_flag_node initialLegacyState
      by_cases hd : destructiveMatch (lowerData q) <;> simp [hd]
    have := legacyLoop_planning_le o hg fuel 0 (red_flag_node (initialLegacyState q))
    omega
  · rw [if_neg hf]
    unfold red_flag_node initialLegacyState
    by_cases hd : destructiveMatch (lowerData q) <;> simp [hd, planningCount]

/-- Oracle that always reports a low score with `retry_needed` set. -/
def lowScoreRetryOracles : LegacyOracles :=
  { benignOracles with conf := fun _ => .parsed (some ratHalf) true }

/-- Witness for the amended C3: a well-behaved confidence oracle on a
concrete run keeps the planning passes within the bound. -/
theorem plan_retry_bound_witness :
    (∀ n, goodConf (lowScoreRetryOracles.conf n)) ∧
    planningCount (runLegacy lowScoreRetryOracles 10 "hi") ≤ 3 :=
  ⟨fun _ => fun _ => rfl, plan_retry_bound lowScoreRetryOracles 10 "hi" (fun _ => fun _ => rfl)⟩

/-- A conversational task with only its id varying. -/
def convTask (n : Int) : WorkerTask :=
  { id := n, title := [], worker_type := "conversational".data, description := []
    requires_context := false, context_type := none, google_service := none }

/-- Oracles for concrete smart-orchestrator runs: worker output encodes
the task id so that consumption order is observable. -/
def idEchoOracles : WowOracles :=
  { planner := .error ""
    web := fun _ => .ok []
    ragItems := fun _ => []
    clubItems := fun _ => []
    conv := fun i => .ok (if i = 1 then "one".data else "two".data)
    github := fun _ => .ok []
    google := fun _ => .ok []
    fusion := fun t => t }

/-- Claim C4 counterexample: when the plan lists its tasks as
`[id 2, id 1]`, the results list the aggregator consumes (the fan-out
collection order) carries the ids `[2, 1]` — not ascending — and the
fusion prompt embeds the outputs in exactly that order, since
`results_aggregator_node` never sorts. -/
theorem aggregator_not_sorted_by_id :
    ((fanout_results idEchoOracles [] [convTask 2, convTask 1]).map
        (fun r => r.task_id)) = [2, 1] ∧
    ¬ List.Sorted (· ≤ ·)
        ((fanout_results idEchoOracles [] [convTask 2, convTask 1]).map
          (fun r => r.task_id)) ∧
    results_aggregator_node idEchoOracles.fusion ("q".data)
        (fanout_results idEchoOracles [] [convTask 2, convTask 1]) =
      fusionPrompt ("q".data)
        (resultsTextOf (fanout_results idEchoOracles [] [convTask 2, convTask 1])) := by
  refine ⟨by decide, ?_, rfl⟩
  have hm : ((fanout_results idEchoOracles [] [convTask 2, convTask 1]).map
      (fun r => r.task_id)) = [2, 1] := by decide
  rw [hm]
  intro h
  have := List.rel_of_sorted_cons h 1 (by simp)
  omega

/-- Claim C4 (amended): the aggregator consumes the task results in the
order they were collected from the fan-out (it applies no sorting by
`task.id`); with exactly one result the final response is that result's
output verbatim, and with several results the final response is the
fusion LLM applied to the prompt embedding the outputs in list order. -/
theorem results_aggregator_behavior :
    (∀ (f : List Char → List Char) (q : List Char) (r : TaskResult),
        results_aggregator_node f q [r] = r.output) ∧
    (∀ (f : List Char → List Char) (q : List Char) (r1 r2 : TaskResult)
        (rs : List TaskResult),
        results_aggregator_node f q (r1 :: r2 :: rs) =
          f (fusionPrompt q (resultsTextOf (r1 :: r2 :: rs)))) :=
  ⟨fun _ _ _ => rfl, fun _ _ _ _ _ => rfl⟩

/-- A 3000-character web query. -/
def longQuery : List Char := List.replicate 3000 'a'

/-- Plan issuing the long query to the web provider only. -/
def planLongWebQuery : ExecutionPlan :=
  { needs_context := true, context_type := some ("web".data), reasoning := []
    tasks := [], search_queries := [longQuery], rag_queries := [], club_queries := [] }

/-- Claim C5 counterexample: `web_search_node` applies no budget — with
a single 3000-character query (and an empty search result) its
`combined_context` already has 3017 characters, exceeding the
3000-character budget that only the mixed node enforces. -/
theorem web_combined_exceeds_budget :
    (web_search_node idEchoOracles planLongWebQuery).2.length = 3017 ∧
    3000 < (web_search_node idEchoOracles planLongWebQuery).2.length := by
  have e1 : (web_search_node idEchoOracles planLongWebQuery).2 =
      "[".data ++ "Web Search".data ++ ": ".data ++ [aposC] ++ longQuery ++
      [aposC] ++ "]".data ++ "\n".data ++ ([] : List Char) := rfl
  have e2 : (web_search_node idEchoOracles planLongWebQuery).2.length = 3017 := by
    rw [e1]
    simp only [List.length_append, List.length_cons, List.length_nil, longQuery,
      List.length_replicate]
  exact ⟨e2, by omega⟩

/-- Claim C5 (amended): the 3000-character budget is enforced only by
`gather_mixed_context_node`, whose combined context never exceeds it
(for every plan and every provider outcome); the single-provider nodes
do not truncate, see the counterexample. -/
theorem mixed_context_within_budget (o : WowOracles) (plan : ExecutionPlan) :
    (gather_mixed_context_node o plan).combined_context.length ≤ 3000 := by
  simp only [gather_mixed_context_node, List.length_take]
  omega

/-- Claim C6 counterexample: on a malformed structured-output outcome
the planning node re-raises instead of substituting the spec's default
plan (`needs_context=false`, one conversational task with id 1). -/
theorem planning_exception_propagates :
    planning_agent_node (Except.error "boom") = Except.error "boom" ∧
    planning_agent_node (Except.error "boom") ≠
      Except.ok (specDefaultPlan, specDefaultPlan.tasks) := by
  exact ⟨rfl, by simp [planning_agent_node]⟩

/-- Claim C6 (amended): a planner exception propagates out of
`planning_agent_node`; the request still yields a response only because
`SmartOrchestrator.process` catches it and returns the
`Orchestrator error: ...` failure text (not a default-plan response);
the default-on-failure behaviour exists only in the legacy
`planning_node`, which falls back to intents `["general"]` and records
the error. -/
theorem planner_failure_handling (o : WowOracles) (q : List Char) (e : String)
    (hp : o.planner = .error e) (h1 : stripChars q ≠ []) (h2 : ¬ 5000 < q.length) :
    wowProcess o q =
      { success := false, response := "Orchestrator error: ".data ++ e.data } ∧
    (∀ (msg : String) (s : LegacyState),
        (planning_node (.exn msg) s).intent_categories = ["general"] ∧
        (planning_node (.exn msg) s).errors =
          s.errors ++ ["Intent classification failed: " ++ msg]) := by
  constructor
  · simp [wowProcess, wowGraphRun, planning_agent_node, hp, h1, h2]
  · intro msg s
    exact ⟨rfl, rfl⟩

/-- Oracles whose planner fails with a fixed message. -/
def failingPlannerOracles : WowOracles :=
  { idEchoOracles with planner := .error "bad json" }

/-- Witness for the amended C6 on a concrete query and failure. -/
theorem planner_failure_handling_witness :
    failingPlannerOracles.planner = .error "bad json" ∧
    stripChars ("hello".data) ≠ [] ∧
    ¬ 5000 < ("hello".data).length ∧
    (wowProcess failingPlannerOracles ("hello".data) =
      { success := false, response := "Orchestrator error: ".data ++ "bad json".data } ∧
     (∀ (msg : String) (s : LegacyState),
        (planning_node (.exn msg) s).intent_categories = ["general"] ∧
        (planning_node (.exn msg) s).errors =
          s.errors ++ ["Intent classification failed: " ++ msg])) :=
  ⟨rfl, by decide, by decide,
   planner_failure_handling failingPlannerOracles ("hello".data) "bad json" rfl
     (by decide) (by decide)⟩

/-- Looking a thread up after `add_message` appended to it. -/
theorem threadLookup_append (ts : List (String × List ChatMsg)) (tid : String)
    (m : ChatMsg) :
    threadLookup (threadAppend ts tid m) tid =
      (threadLookup ts tid).map (fun l => l ++ [m]) := by
  induction ts with
  | nil => rfl
  | cons kv rest ih =>
    by_cases h : kv.1 = tid
    · simp [threadAppend, threadLookup, h]
    · simpa [threadAppend, threadLookup, h] using ih

/-- Claim C8 (code bug, evaluated): for an initialized manager and an
existing thread, even when the orchestrator returns normally,
`AgentManager.chat` raises `NameError` on the dead
`response["messages"][-1].content` statement (agent.py:584): no record
is returned, and the thread holds the appended user message but no
assistant reply. -/
theorem chat_raises_name_error (st : AgentMgrState) (tid : String)
    (msgs : List ChatMsg) (m : String) (r : OrchReply)
    (hinit : st.initialized = true)
    (hth : threadLookup st.threads tid = some msgs) :
    (agent_chat st tid m (.ok r)).1 = .error .nameErrorResponse ∧
    threadLookup (agent_chat st tid m (.ok r)).2.threads tid =
      some (msgs ++ [⟨"user", m⟩]) := by
  simp [agent_chat, hinit, hth, threadLookup_append]

/-- Witness for C8 on a concrete manager state. -/
theorem chat_raises_name_error_witness :
    ({ initialized := true, threads := [("t1", [])] } : AgentMgrState).initialized = true ∧
    threadLookup ({ initialized := true, threads := [("t1", [])] } : AgentMgrState).threads "t1" =
      some [] ∧
    ((agent_chat { initialized := true, threads := [("t1", [])] } "t1" "hello"
        (.ok { response := "hi", tools_used := [] })).1 = .error .nameErrorResponse ∧
     threadLookup (agent_chat { initialized := true, threads := [("t1", [])] } "t1" "hello"
        (.ok { response := "hi", tools_used := [] })).2.threads "t1" =
      some ([] ++ [⟨"user", "hello"⟩])) :=
  ⟨rfl, rfl,
   chat_raises_name_error { initialized := true, threads := [("t1", [])] } "t1" [] "hello"
     { response := "hi", tools_used := [] } rfl rfl⟩

/-- A guarded `filterMap` is a `map` when the guard holds everywhere. -/
theorem filterMap_if_all {α β : Type} (P : α → Prop) [DecidablePred P] (f : α → β) :
    ∀ l : List α, (∀ a ∈ l, P a) →
      (l.filterMap fun a => if P a then some (f a) else none) = l.map f := by
  intro l
  induction l with
  | nil => intro _; rfl
  | cons a rest ih =>
    intro h
    have ha : P a := h a (List.mem_cons_self a rest)
    simp only [List.filterMap_cons, if_pos ha, List.map_cons]
    rw [ih (fun b hb => h b (List.mem_cons_of_mem a hb))]

/-- A `filterMap` that loses no length drops nothing. -/
theorem filterMap_full {α β : Type} (f : α → Option β) :
    ∀ l : List α, (l.filterMap f).length = l.length → ∀ a ∈ l, (f a).isSome := by
  intro l
  induction l with
  | nil => intro _ a ha; cases ha
  | cons a rest ih =>
    intro h b hb
    cases hfa : f a with
    | none =>
      exfalso
      rw [List.filterMap_cons, hfa] at h
      have := List.length_filterMap_le f rest
      simp [List.length_cons] at h
      omega
    | some v =>
      rcases List.mem_cons.mp hb with rfl | hbr
      · simp [hfa]
      · rw [List.filterMap_cons, hfa] at h
        simp only [List.length_cons] at h
        exact ih (by omega) b hbr

/-- In a dict with unique keys, every entry is found by lookup. -/
theorem dictGet_of_mem_nodup (m : List (Nat × String)) (kv : Nat × String)
    (hm : kv ∈ m) (hnd : (m.map (fun e => e.1)).Nodup) :
    dictGet m kv.1 = some kv.2 := by
  induction m with
  | nil => cases hm
  | cons e rest ih =>
    rcases List.mem_cons.mp hm with rfl | hr
    · simp [dictGet]
    · have hne : e.1 ≠ kv.1 := by
        intro hcontra
        have : kv.1 ∈ rest.map (fun x => x.1) := List.mem_map_of_mem _ hr
        simp only [List.map_cons, List.nodup_cons] at hnd
        exact hnd.1 (hcontra ▸ this)
      simp only [dictGet, if_neg hne]
      exact ih hr (by simp only [List.map_cons, List.nodup_cons] at hnd; exact hnd.2)

/-- A key that no entry carries looks up to `none`. -/
theorem dictGet_none_of_not_key (m : List (Nat × String)) (i : Nat)
    (h : ∀ kv ∈ m, kv.1 ≠ i) : dictGet m i = none := by
  induction m with
  | nil => rfl
  | cons e rest ih =>
    simp only [dictGet, if_neg (h e (List.mem_cons_self e rest))]
    exact ih (fun kv hkv => h kv (List.mem_cons_of_mem e hkv))

/-- Lookup into the sequentially rebuilt dict: key `j + i` finds the
value of the `i`-th kept triple. -/
theorem dictGet_rebuiltMapFrom (kept : List (String × Emb × String)) :
    ∀ (j i : Nat), dictGet (rebuiltMapFrom j kept) (j + i) =
      (kept.get? i).map (fun t => t.2.2) := by
  induction kept with
  | nil => intro j i; simp [rebuiltMapFrom, dictGet]
  | cons t rest ih =>
    intro j i
    cases i with
    | zero => simp [rebuiltMapFrom, dictGet]
    | succ i =>
      have hne : ¬ (j = j + (i + 1)) := by omega
      simp only [rebuiltMapFrom, dictGet, if_neg hne]
      have := ih (j + 1) i
      rw [show j + 1 + i = j + (i + 1) by omega] at this
      simpa using this

/-- Lookup into the full rebuilt dict. -/
theorem dictGet_rebuiltMap (kept : List (String × Emb × String)) (i : Nat) :
    dictGet (rebuiltMap kept) i = (kept.get? i).map (fun t => t.2.2) := by
  have := dictGet_rebuiltMapFrom kept 0 i
  simpa [rebuiltMap] using this

/-- The values of the rebuilt dict are the kept papers. -/
theorem rebuiltMapFrom_values (kept : List (String × Emb × String)) :
    ∀ j, (rebuiltMapFrom j kept).map (fun kv => kv.2) =
      kept.map (fun t => t.2.2) := by
  induction kept with
  | nil => intro j; rfl
  | cons t rest ih => intro j; simp [rebuiltMapFrom, ih]

/-- Membership in the distance-pair enumeration. -/
theorem mem_distPairs (s : VectorStore) (q : Emb) (p : Nat × Int) :
    p ∈ distPairs s q ↔
      p.1 < s.index.length ∧ p.2 = l2 q (s.index.getD p.1 []) := by
  unfold distPairs
  constructor
  · intro hp
    obtain ⟨i, hi, rfl⟩ := List.mem_map.mp hp
    exact ⟨List.mem_range.mp hi, rfl⟩
  · rintro ⟨h1, h2⟩
    refine List.mem_map.mpr ⟨p.1, List.mem_range.mpr h1, ?_⟩
    rw [← h2]

/-- The sorted pair list is a permutation of the enumeration. -/
theorem nearestPairs_perm (s : VectorStore) (q : Emb) :
    (nearestPairs s q).Perm (distPairs s q) :=
  List.perm_insertionSort hitLE (distPairs s q)

/-- The pair list FAISS returns is sorted. -/
theorem nearestPairs_sorted (s : VectorStore) (q : Emb) :
    List.Sorted hitLE (nearestPairs s q) :=
  List.sorted_insertionSort hitLE (distPairs s q)

/-- Length of the sorted pair list. -/
theorem nearestPairs_length (s : VectorStore) (q : Emb) :
    (nearestPairs s q).length = s.index.length := by
  rw [(nearestPairs_perm s q).length_eq]
  unfold distPairs
  simp

/-- Under index/metadata alignment, `search` is a plain map over the
taken prefix of the sorted pairs. -/
theorem search_eq_map (s : VectorStore) (q : Emb) (k : Nat)
    (hne : s.index.length ≠ 0) (hmeta : s.metadata.length = s.index.length) :
    search s q k = ((nearestPairs s q).take (min k s.index.length)).map (mkHit s) := by
  unfold search
  rw [if_neg hne]
  refine filterMap_if_all (fun p => p.1 < s.metadata.length) (mkHit s) _ ?_
  intro p hp
  have hmem : p ∈ nearestPairs s q := List.mem_of_mem_take hp
  have := ((mem_distPairs s q p).mp ((nearestPairs_perm s q).mem_iff.mp hmem)).1
  omega

/-- When every scanned chunk id resolves to a paper different from the
one being deleted, the scan keeps one triple per id. -/
theorem deleteScan_keep_all (s : VectorStore) (D : String) :
    ∀ l : List Nat,
      (∀ i ∈ l, (∃ p, dictGet s.id_to_paper i = some p ∧ p ≠ D) ∧
        i < s.metadata.length ∧ i < s.index.length) →
      ∃ kept, deleteScan s D l = some kept ∧ kept.length = l.length := by
  intro l
  induction l with
  | nil => intro _; exact ⟨[], rfl, rfl⟩
  | cons i rest ih =>
    intro h
    obtain ⟨⟨p, hp, hpD⟩, hm, hi⟩ := h i (List.mem_cons_self i rest)
    obtain ⟨kept, hk, hkl⟩ := ih (fun j hj => h j (List.mem_cons_of_mem i hj))
    have h1 : s.metadata.get? i = some (s.metadata.getD i "") := by
      simp [List.getD, List.getElem?_eq_getElem hm]
    have h2 : s.index.get? i = some (s.index.getD i []) := by
      simp [List.getD, List.getElem?_eq_getElem hi]
    refine ⟨(s.metadata.getD i "", s.index.getD i [], p) :: kept, ?_, by simp [hkl]⟩
    simp only [deleteScan, hp, if_neg hpD, h1, h2, hk]
    rfl

/-- Claim C10: deleting a paper that has no chunks returns 0 and leaves
the store untouched — same FAISS index, same metadata list, same
chunk-to-paper dict — with no rebuild and no `_save_index` write. -/
theorem delete_paper_no_op (s : VectorStore) (D : String)
    (hlen : s.metadata.length ≤ s.index.length)
    (hkeys : ∀ i < s.metadata.length,
      ∃ p, dictGet s.id_to_paper i = some p ∧ p ≠ D) :
    delete_paper s D = some (0, s, false) := by
  obtain ⟨kept, hscan, hklen⟩ := deleteScan_keep_all s D (List.range s.metadata.length)
    (by
      intro i hi
      have hilt := List.mem_range.mp hi
      exact ⟨hkeys i hilt, hilt, by omega⟩)
  unfold delete_paper
  rw [hscan]
  have hz : s.metadata.length - kept.length = 0 := by
    rw [hklen, List.length_range]
    omega
  rw [List.length_range] at hklen
  simp [Option.map, hklen]

/-- A small well-formed store holding one paper. -/
def storeOnePaper : VectorStore :=
  { index := [[1, 2], [3, 4]], metadata := ["c0", "c1"]
    id_to_paper := [(0, "p0"), (1, "p0")] }

/-- Witness for C10 on a concrete store and an absent paper id. -/
theorem delete_paper_no_op_witness :
    storeOnePaper.metadata.length ≤ storeOnePaper.index.length ∧
    (∀ i < storeOnePaper.metadata.length,
      ∃ p, dictGet storeOnePaper.id_to_paper i = some p ∧ p ≠ "nope") ∧
    delete_paper storeOnePaper "nope" = some (0, storeOnePaper, false) := by
  have hk : ∀ i < storeOnePaper.metadata.length,
      ∃ p, dictGet storeOnePaper.id_to_paper i = some p ∧ p ≠ "nope" := by
    intro i hi
    have hi2 : i < 2 := hi
    interval_cases i
    · exact ⟨"p0", rfl, by decide⟩
    · exact ⟨"p0", rfl, by decide⟩
  exact ⟨by decide, hk, delete_paper_no_op storeOnePaper "nope" (by decide) hk⟩

/-- Claim C9: on a non-empty aligned store, `search` returns exactly
`min k ntotal` results, in ascending-distance order, each scored
`1 / (1 + distance)`; the returned chunk ids are the nearest ones: the
pair list is a permutation of all (id, distance) pairs and every
returned distance is at most every distance left beyond the taken
prefix. -/
theorem search_topk (s : VectorStore) (q : Emb) (k : Nat)
    (hne : 0 < s.index.length) (hmeta : s.metadata.length = s.index.length) :
    (search s q k).length = min k s.index.length ∧
    List.Chain' (fun a b => a.distance ≤ b.distance) (search s q k) ∧
    (∀ r ∈ search s q k, r.score = 1 / (1 + (r.distance : Rat))) ∧
    (∀ r ∈ search s q k, ∀ p ∈ (nearestPairs s q).drop (min k s.index.length),
        r.distance ≤ p.2) ∧
    (nearestPairs s q).Perm (distPairs s q) := by
  have hne2 : s.index.length ≠ 0 := by omega
  have hse := search_eq_map s q k hne2 hmeta
  have hsorted := nearestPairs_sorted s q
  have hlen := nearestPairs_length s q
  refine ⟨?_, ?_, ?_, ?_, nearestPairs_perm s q⟩
  · rw [hse, List.length_map, List.length_take, hlen]
    omega
  · rw [hse]
    have hpw : List.Pairwise hitLE
        ((nearestPairs s q).take (min k s.index.length)) :=
      List.Pairwise.sublist (List.take_sublist _ _) hsorted
    have hmapped : List.Pairwise (fun a b => a.distance ≤ b.distance)
        (((nearestPairs s q).take (min k s.index.length)).map (mkHit s)) := by
      rw [List.pairwise_map]
      refine hpw.imp ?_
      intro a b hab
      rcases hab with h | ⟨h, _⟩
      · exact le_of_lt h
      · exact le_of_eq h
    exact hmapped.chain'
  · intro r hr
    rw [hse] at hr
    obtain ⟨p, hp, rfl⟩ := List.mem_map.mp hr
    rfl
  · intro r hr p hp
    rw [hse] at hr
    obtain ⟨p0, hp0, rfl⟩ := List.mem_map.mp hr
    have hpw2 : List.Pairwise hitLE
        ((nearestPairs s q).take (min k s.index.length) ++
         (nearestPairs s q).drop (min k s.index.length)) := by
      rw [List.take_append_drop]
      exact hsorted
    have hcross := (List.pairwise_append.mp hpw2).2.2 p0 hp0 p hp
    rcases hcross with h | ⟨h, _⟩
    · exact le_of_lt h
    · exact le_of_eq h

/-- A three-chunk aligned store. -/
def storeThree : VectorStore :=
  { index := [[0, 0], [3, 4], [1, 1]], metadata := ["c0", "c1", "c2"]
    id_to_paper := [(0, "p0"), (1, "p1"), (2, "p2")] }

/-- Witness for C9 on a concrete store, query and `k`. -/
theorem search_topk_witness :
    0 < storeThree.index.length ∧
    storeThree.metadata.length = storeThree.index.length ∧
    ((search storeThree [0, 0] 2).length = min 2 storeThree.index.length ∧
     List.Chain' (fun a b => a.distance ≤ b.distance) (search storeThree [0, 0] 2) ∧
     (∀ r ∈ search storeThree [0, 0] 2, r.score = 1 / (1 + (r.distance : Rat))) ∧
     (∀ r ∈ search storeThree [0, 0] 2,
        ∀ p ∈ (nearestPairs storeThree [0, 0]).drop (min 2 storeThree.index.length),
          r.distance ≤ p.2) ∧
     (nearestPairs storeThree [0, 0]).Perm (distPairs storeThree [0, 0])) :=
  ⟨by decide, by decide, search_topk storeThree [0, 0] 2 (by decide) (by decide)⟩

/-- Enumerating positions and reading with a default rebuilds the list. -/
theorem range_map_getD {α : Type} (l : List α) (d : α) :
    (List.range l.length).map (fun i => l.getD i d) = l := by
  apply List.ext_getElem
  · simp
  · intro n h1 h2
    simp only [List.getElem_map, List.getElem_range]
    have hn : n < l.length := by simpa using h1
    simp [List.getD, List.getElem?_eq_getElem hn]

/-- Under well-formedness the delete scan computes exactly the kept
triples of `keptSpec`. -/
theorem deleteScan_filterMap (s : VectorStore) (D : String)
    (hal : s.index.length = s.metadata.length) :
    ∀ l : List Nat,
      (∀ i ∈ l, i < s.metadata.length ∧ (dictGet s.id_to_paper i).isSome) →
      deleteScan s D l = some (l.filterMap (keptFun s D)) := by
  intro l
  induction l with
  | nil => intro _; rfl
  | cons i rest ih =>
    intro h
    obtain ⟨hm, hsome⟩ := h i (List.mem_cons_self i rest)
    obtain ⟨p, hp⟩ := Option.isSome_iff_exists.mp hsome
    have hrest := ih (fun j hj => h j (List.mem_cons_of_mem i hj))
    by_cases hpD : p = D
    · simp [deleteScan, hp, hpD, hrest, List.filterMap_cons, keptFun]
    · have hi : i < s.index.length := by omega
      simp [deleteScan, hp, hpD, hrest, List.filterMap_cons, keptFun, List.getD,
        List.getElem?_eq_getElem, hm, hi]

/-- Every kept triple carries a paper different from the deleted one. -/
theorem keptSpec_vals (s : VectorStore) (D : String) :
    ∀ t ∈ keptSpec s D, t.2.2 ≠ D := by
  intro t ht
  obtain ⟨i, -, hf⟩ := List.mem_filterMap.mp ht
  cases hdg : dictGet s.id_to_paper i with
  | none => simp [keptFun, hdg] at hf
  | some p =>
    by_cases hpD : p = D
    · simp [keptFun, hdg, hpD] at hf
    · simp [keptFun, hdg, hpD] at hf
      rw [← hf]
      exact hpD

/-- When no chunk belongs to the deleted paper, `keptSpec` is a plain
per-id map. -/
theorem keptSpec_all_kept (s : VectorStore) (D : String) :
    ∀ l : List Nat,
      (∀ i ∈ l, ∃ p, dictGet s.id_to_paper i = some p ∧ p ≠ D) →
      l.filterMap (keptFun s D) =
        l.map (fun i => (s.metadata.getD i "", s.index.getD i []
                         , (dictGet s.id_to_paper i).getD "")) := by
  intro l
  induction l with
  | nil => intro _; rfl
  | cons i rest ih =>
    intro h
    obtain ⟨p, hp, hpD⟩ := h i (List.mem_cons_self i rest)
    rw [List.filterMap_cons, List.map_cons]
    have : keptFun s D i = some (s.metadata.getD i "", s.index.getD i []
        , (dictGet s.id_to_paper i).getD "") := by
      simp [keptFun, hp, hpD]
    rw [this, ih (fun j hj => h j (List.mem_cons_of_mem i hj))]

/-- Full description of the store `delete_paper` leaves behind, on a
well-formed input: metadata, index and dict lookups are exactly the
kept triples of `keptSpec`, no dict value equals the deleted paper, and
the count accounts for the dropped chunks.  Holds uniformly whether or
not a rebuild happened. -/
theorem delete_paper_desc (s : VectorStore) (D : String) (cnt : Nat)
    (s2 : VectorStore) (saved : Bool) (hwf : StoreWF s)
    (h : delete_paper s D = some (cnt, s2, saved)) :
    s2.metadata = (keptSpec s D).map (fun t => t.1) ∧
    s2.index = (keptSpec s D).map (fun t => t.2.1) ∧
    (∀ j, dictGet s2.id_to_paper j = ((keptSpec s D).get? j).map (fun t => t.2.2)) ∧
    (∀ kv ∈ s2.id_to_paper, kv.2 ≠ D) ∧
    cnt = s.metadata.length - (keptSpec s D).length := by
  obtain ⟨hal, hsome, hkeys, hnd⟩ := hwf
  have hscan := deleteScan_filterMap s D hal (List.range s.metadata.length)
    (fun i hi => ⟨List.mem_range.mp hi, hsome i (List.mem_range.mp hi)⟩)
  unfold delete_paper at h
  rw [hscan] at h
  simp only [Option.map] at h
  rw [show (List.range s.metadata.length).filterMap (keptFun s D) = keptSpec s D
    from rfl] at h
  by_cases hdel : 0 < s.metadata.length - (keptSpec s D).length
  · rw [if_pos hdel] at h
    simp only [Option.some.injEq, Prod.mk.injEq] at h
    obtain ⟨hc, hs2, -⟩ := h
    subst hs2
    refine ⟨rfl, rfl, ?_, ?_, hc.symm⟩
    · intro j
      exact dictGet_rebuiltMap (keptSpec s D) j
    · intro kv hkv
      have hv : kv.2 ∈ (keptSpec s D).map (fun t => t.2.2) := by
        have := rebuiltMapFrom_values (keptSpec s D) 0
        rw [show rebuiltMapFrom 0 (keptSpec s D) =
          ({ index := (keptSpec s D).map (fun t => t.2.1)
             metadata := (keptSpec s D).map (fun t => t.1)
             id_to_paper := rebuiltMap (keptSpec s D) } : VectorStore).id_to_paper
          from rfl] at this
        rw [← this]
        exact List.mem_map_of_mem _ hkv
      obtain ⟨t, ht, htv⟩ := List.mem_map.mp hv
      exact htv ▸ keptSpec_vals s D t ht
  · rw [if_neg hdel] at h
    simp only [Option.some.injEq, Prod.mk.injEq] at h
    obtain ⟨hc, hs2, -⟩ := h
    subst hs2
    have hle : (keptSpec s D).length ≤ s.metadata.length := by
      have := List.length_filterMap_le (keptFun s D) (List.range s.metadata.length)
      simpa [keptSpec] using this
    have hkl : (keptSpec s D).length = s.metadata.length := by omega
    have hfull := filterMap_full (keptFun s D) (List.range s.metadata.length)
      (by simpa [keptSpec] using hkl)
    have hK : ∀ i < s.metadata.length,
        ∃ p, dictGet s.id_to_paper i = some p ∧ p ≠ D := by
      intro i hi
      have := hfull i (List.mem_range.mpr hi)
      cases hdg : dictGet s.id_to_paper i with
      | none => simp [keptFun, hdg] at this
      | some p =>
        by_cases hpD : p = D
        · simp [keptFun, hdg, hpD] at this
        · exact ⟨p, rfl, hpD⟩
    have hmapform : keptSpec s D =
        (List.range s.metadata.length).map (fun i =>
          (s.metadata.getD i "", s.index.getD i []
           , (dictGet s.id_to_paper i).getD "")) := by
      unfold keptSpec
      exact keptSpec_all_kept s D (List.range s.metadata.length)
        (fun i hi => hK i (List.mem_range.mp hi))
    refine ⟨?_, ?_, ?_, ?_, by omega⟩
    · rw [hmapform]
      simp only [List.map_map]
      exact (range_map_getD s.metadata "").symm
    · rw [hmapform]
      simp only [List.map_map]
      have : (List.range s.metadata.length).map
          ((fun t => t.2.1) ∘ (fun i => (s.metadata.getD i "", s.index.getD i []
            , (dictGet s.id_to_paper i).getD ""))) =
          (List.range s.index.length).map (fun i => s.index.getD i []) := by
        rw [hal]
        rfl
      rw [this]
      exact (range_map_getD s.index []).symm
    · intro j
      by_cases hj : j < s.metadata.length
      · obtain ⟨p, hp, hpD⟩ := hK j hj
        rw [hmapform]
        rw [List.get?_eq_getElem?]
        rw [List.getElem?_map]
        rw [List.getElem?_range hj]
        simp [hp]
      · rw [hmapform]
        have hn : dictGet s.id_to_paper j = none := by
          apply dictGet_none_of_not_key
          intro kv hkv
          have := hkeys kv hkv
          omega
        rw [hn, List.get?_eq_getElem?, List.getElem?_map]
        rw [List.getElem?_eq_none (by simpa using hj)]
        rfl
    · intro kv hkv
      have hlt := hkeys kv hkv
      have heq := dictGet_of_mem_nodup s.id_to_paper kv hkv hnd
      obtain ⟨p, hp, hpD⟩ := hK kv.1 hlt
      rw [heq] at hp
      cases hp
      exact hpD

/-- Claim C1: once `delete_paper D` returns on a well-formed store, no
search over the new store ever returns a hit whose `paper_id` is `D`,
`get_all_papers` no longer lists `D`, the surviving store holds exactly
the other documents' chunks in order — metadata, embeddings and
chunk-to-paper mapping intact — and every surviving chunk is still
returned by a full-size search, with its metadata and paper id. -/
theorem delete_paper_removes (s : VectorStore) (D : String) (cnt : Nat)
    (s2 : VectorStore) (saved : Bool) (hwf : StoreWF s)
    (h : delete_paper s D = some (cnt, s2, saved)) :
    (∀ (q : Emb) (k : Nat), ∀ r ∈ search s2 q k, r.paper_id ≠ D) ∧
    D ∉ get_all_papers s2 ∧
    s2.metadata = (keptSpec s D).map (fun t => t.1) ∧
    s2.index = (keptSpec s D).map (fun t => t.2.1) ∧
    (∀ j, dictGet s2.id_to_paper j = ((keptSpec s D).get? j).map (fun t => t.2.2)) ∧
    (∀ (q : Emb), ∀ t ∈ keptSpec s D, ∃ r ∈ search s2 q s2.index.length,
        r.chunk = t.1 ∧ r.paper_id = t.2.2) := by
  obtain ⟨hm2, hi2, hd2, hv2, -⟩ := delete_paper_desc s D cnt s2 saved hwf h
  have hmlen : s2.metadata.length = (keptSpec s D).length := by rw [hm2]; simp
  have hilen : s2.index.length = (keptSpec s D).length := by rw [hi2]; simp
  have hpidj : ∀ (j : Nat) (hj : j < (keptSpec s D).length),
      (dictGet s2.id_to_paper j).getD "unknown" = ((keptSpec s D).get ⟨j, hj⟩).2.2 := by
    intro j hj
    rw [hd2 j, List.get?_eq_getElem?, List.getElem?_eq_getElem hj]
    simp
  have hchunkj : ∀ (j : Nat) (hj : j < (keptSpec s D).length),
      s2.metadata.getD j "" = ((keptSpec s D).get ⟨j, hj⟩).1 := by
    intro j hj
    rw [hm2]
    have hjm : j < ((keptSpec s D).map (fun t => t.1)).length := by simpa using hj
    rw [List.getD, List.get?_eq_getElem?, List.getElem?_eq_getElem hjm]
    simp
  refine ⟨?_, ?_, hm2, hi2, hd2, ?_⟩
  · intro q k r hr
    unfold search at hr
    by_cases hz : s2.index.length = 0
    · rw [if_pos hz] at hr; cases hr
    · rw [if_neg hz] at hr
      obtain ⟨p, hp, hsome⟩ := List.mem_filterMap.mp hr
      by_cases hlt : p.1 < s2.metadata.length
      · rw [if_pos hlt] at hsome
        have hjk : p.1 < (keptSpec s D).length := by omega
        cases hsome
        have hv := hpidj p.1 hjk
        show (dictGet s2.id_to_paper p.1).getD "unknown" ≠ D
        rw [hv]
        exact keptSpec_vals s D _ (List.get_mem _ _ _)
      · rw [if_neg hlt] at hsome; cases hsome
  · intro hmem
    unfold get_all_papers at hmem
    obtain ⟨kv, hkv, hkvD⟩ := List.mem_map.mp (List.mem_dedup.mp hmem)
    exact hv2 kv hkv hkvD
  · intro q t ht
    obtain ⟨j, rfl⟩ := List.mem_iff_get.mp ht
    have hjlt : (j : Nat) < (keptSpec s D).length := j.isLt
    have hne : s2.index.length ≠ 0 := by
      rw [hilen]; omega
    have hmeta2 : s2.metadata.length = s2.index.length := by rw [hmlen, hilen]
    have hse := search_eq_map s2 q s2.index.length hne hmeta2
    have htake : (nearestPairs s2 q).take (min s2.index.length s2.index.length) =
        nearestPairs s2 q := by
      rw [Nat.min_self]
      exact List.take_of_length_le (le_of_eq (nearestPairs_length s2 q))
    have hpmem : ((j : Nat), l2 q (s2.index.getD j [])) ∈ nearestPairs s2 q := by
      rw [(nearestPairs_perm s2 q).mem_iff]
      exact (mem_distPairs s2 q _).mpr ⟨by rw [hilen]; exact hjlt, rfl⟩
    rw [hse, htake]
    refine ⟨mkHit s2 ((j : Nat), l2 q (s2.index.getD j []))
      , List.mem_map_of_mem _ hpmem, ?_, ?_⟩
    · show s2.metadata.getD (j : Nat) "" = _
      rw [hchunkj (j : Nat) hjlt]
    · show (dictGet s2.id_to_paper (j : Nat)).getD "unknown" = _
      rw [hpidj (j : Nat) hjlt]

/-- A store holding chunks of two papers. -/
def storeTwoPapers : VectorStore :=
  { index := [[0, 0], [3, 4], [1, 1]], metadata := ["c0", "c1", "c2"]
    id_to_paper := [(0, "p0"), (1, "p1"), (2, "p0")] }

/-- The store left after deleting paper `p0` from `storeTwoPapers`. -/
def storeTwoPapersAfter : VectorStore :=
  { index := [[3, 4]], metadata := ["c1"], id_to_paper := [(0, "p1")] }

/-- Witness for C1 on a concrete deletion. -/
theorem delete_paper_removes_witness :
    StoreWF storeTwoPapers ∧
    delete_paper storeTwoPapers "p0" = some (2, storeTwoPapersAfter, true) ∧
    ((∀ (q : Emb) (k : Nat), ∀ r ∈ search storeTwoPapersAfter q k, r.paper_id ≠ "p0") ∧
     "p0" ∉ get_all_papers storeTwoPapersAfter ∧
     storeTwoPapersAfter.metadata =
       (keptSpec storeTwoPapers "p0").map (fun t => t.1) ∧
     storeTwoPapersAfter.index =
       (keptSpec storeTwoPapers "p0").map (fun t => t.2.1) ∧
     (∀ j, dictGet storeTwoPapersAfter.id_to_paper j =
       ((keptSpec storeTwoPapers "p0").get? j).map (fun t => t.2.2)) ∧
     (∀ (q : Emb), ∀ t ∈ keptSpec storeTwoPapers "p0",
        ∃ r ∈ search storeTwoPapersAfter q storeTwoPapersAfter.index.length,
          r.chunk = t.1 ∧ r.paper_id = t.2.2)) :=
  ⟨by decide, by decide,
   delete_paper_removes storeTwoPapers "p0" 2 storeTwoPapersAfter true
     (by decide) (by decide)⟩

/-- Claim C7 counterexample: for the text `"ab. cd"` with `S = 4`,
`O = 1`, the chunker produces `["ab.", "cd"]` (the per-chunk `strip()`
discards the space at the chunk boundary), so concatenating the chunks
with the overlap removed yields `"ab.d"`, not the cleaned input
`"ab. cd"`. -/
theorem chunk_roundtrip_counterexample :
    (chunk_text 10 4 1 ("ab. cd".data)).isSome ∧
    (chunk_text 10 4 1 ("ab. cd".data)).map (rejoin 1) ≠
      some (clean_text ("ab. cd".data)) := by
  constructor <;> decide

/-- `pySlice` with non-negative endpoints is take-then-drop. -/
theorem pySlice_nonneg (l : List Char) (a b : Int) (ha : 0 ≤ a) (hb : 0 ≤ b) :
    pySlice l a b = (l.take b.toNat).drop a.toNat := by
  have ha2 : ¬ a < 0 := not_lt.mpr ha
  have hb2 : ¬ b < 0 := not_lt.mpr hb
  simp only [pySlice, if_neg ha2, if_neg hb2]

/-- Gluing a dropped initial segment back onto the corresponding final
segment. -/
theorem take_drop_glue {α : Type} (l : List α) (A B : Nat) (h : A ≤ B) :
    (l.take B).drop A ++ l.drop B = l.drop A := by
  conv_rhs => rw [← List.take_append_drop B l]
  rw [List.drop_append_eq_append_drop]
  congr 1
  by_cases h2 : A ≤ (l.take B).length
  · have hz : A - (l.take B).length = 0 := by omega
    rw [hz, List.drop_zero]
  · have hlen : (l.take B).length = min B l.length := List.length_take B l
    have hBlen : l.length ≤ B := by omega
    rw [List.drop_eq_nil_of_le hBlen]
    simp

/-- The chained tail chunks, with their overlaps dropped, rebuild the
cleaned text from the previous chunk's end onwards. -/
theorem chainFrom_join (O : Nat) (clean : List Char) :
    ∀ (rest : List PyChunk) (e : Int), 0 ≤ e → chainFrom O clean e rest →
      ((rest.map (fun d => d.text.drop O)).flatten) = clean.drop e.toNat := by
  intro rest
  induction rest with
  | nil =>
    intro e he hch
    simp only [chainFrom] at hch
    simp [List.drop_eq_nil_of_le (by omega : clean.length ≤ e.toNat)]
  | cons c rest2 ih =>
    intro e he hch
    obtain ⟨hOe, hstart, hee, htext, hch2⟩ := hch
    have hce : (0 : Int) ≤ c.end_char := le_trans he hee
    have ih2 := ih c.end_char hce hch2
    simp only [List.map_cons, List.flatten_cons]
    rw [ih2, htext, hstart, pySlice_nonneg clean _ _ (by omega) hce,
      List.drop_drop]
    have hAO : (e - (O : Int)).toNat + O = e.toNat := by omega
    rw [hAO]
    exact take_drop_glue clean e.toNat c.end_char.toNat (by omega)

/-- Claim C7 (amended): the round trip holds for chunkings in which no
chunk was altered by the per-chunk `strip()` and consecutive chunks
advance past the overlap: whenever `chunk_text` returns chunks whose
first starts at 0, whose texts equal the raw slices of the cleaned
text, and whose starts/ends chain with exactly `O` characters of
overlap up to the end of the text, concatenating them with the overlap
dropped rebuilds the cleaned text exactly.  (Without those provisos the
boundary whitespace removed by `strip()` is lost — see the
counterexample.) -/
theorem chunk_roundtrip_amended (S O fuel : Nat) (t0 : List Char) (c0 : PyChunk)
    (rest : List PyChunk)
    (_hc : chunk_text fuel S O t0 = some (c0 :: rest))
    (h0 : c0.start_char = 0)
    (hend : (0 : Int) ≤ c0.end_char)
    (htext : c0.text = pySlice (clean_text t0) c0.start_char c0.end_char)
    (hchain : chainFrom O (clean_text t0) c0.end_char rest) :
    rejoin O (c0 :: rest) = clean_text t0 := by
  have htail := chainFrom_join O (clean_text t0) rest c0.end_char hend hchain
  show c0.text ++ _ = _
  rw [htail, htext, h0, pySlice_nonneg (clean_text t0) 0 c0.end_char le_rfl hend]
  simp only [Int.toNat_zero, List.drop_zero]
  exact List.take_append_drop _ _

/-- Input for the C7 witness. -/
def rtInput : List Char := "aaaa. bbbb".data

/-- The three chunks `chunk_text` produces on `rtInput` with
`S = 6, O = 2`. -/
def rtChunks : List PyChunk :=
  [⟨"aaaa.".data, 0, 0, 5⟩, ⟨"a. bbb".data, 1, 3, 9⟩, ⟨"bbb".data, 2, 7, 13⟩]

/-- Witness for the amended C7 on a strip-free chunking. -/
theorem chunk_roundtrip_amended_witness :
    chunk_text 10 6 2 rtInput = some rtChunks ∧
    (⟨"aaaa.".data, 0, 0, 5⟩ : PyChunk).start_char = 0 ∧
    ((0 : Int) ≤ (⟨"aaaa.".data, 0, 0, 5⟩ : PyChunk).end_char) ∧
    (⟨"aaaa.".data, 0, 0, 5⟩ : PyChunk).text =
      pySlice (clean_text rtInput) 0 5 ∧
    chainFrom 2 (clean_text rtInput) 5
      [⟨"a. bbb".data, 1, 3, 9⟩, ⟨"bbb".data, 2, 7, 13⟩] ∧
    rejoin 2 rtChunks = clean_text rtInput := by
  have hch : chainFrom 2 (clean_text rtInput) 5
      [⟨"a. bbb".data, 1, 3, 9⟩, ⟨"bbb".data, 2, 7, 13⟩] := by
    simp only [chainFrom]
    refine ⟨by decide, by decide, by decide, by decide, by decide, by decide,
      by decide, by decide, by decide⟩
  refine ⟨by decide, rfl, by decide, by decide, hch, ?_⟩
  exact chunk_roundtrip_amended 6 2 10 rtInput _ _ (by decide) rfl (by decide)
    (by decide) hch
